import Mathlib

/-!
Shallow embedding of the scheduling engine of `schedule_manager.py`
(class `ScheduleManager`): the in-memory schedule registry (add / list /
delete), the due-time resolver (`get_due_schedules`) and the store's
serialization (`save_schedules` / `load_schedules`).

Python's mutable state is passed explicitly: every operation takes the
current mapping `user_id -> [schedule]` (an insertion-ordered dict,
modelled as an association list) and returns the result together with the
new mapping.  The ambient clock (`datetime.now()`) is abstracted by
explicit parameters: the creation timestamp string for `add_schedule`, and
the current time-of-day, weekday index and date string for
`get_due_schedules`.
-/

namespace Meshmate

/-- Embedding of Python `datetime.time` as used by the manager: hours,
minutes, seconds and microseconds as natural numbers. -/
structure Time where
  hour : Nat
  minute : Nat
  second : Nat
  microsecond : Nat
deriving DecidableEq, Repr

/-- `t.replace(second=0, microsecond=0)`. -/
def minuteTrunc (t : Time) : Time :=
  { t with second := 0, microsecond := 0 }

/-- Numeric value of a decimal digit character (`int(c)` on a digit). -/
def charDigit (c : Char) : Nat := c.toNat - 48

/-- ASCII decimal-digit test (the `\d` of the `strptime` regexes on the
`HH:MM` strings at issue). -/
def isDigitChar (c : Char) : Bool := decide (48 ≤ c.toNat ∧ c.toNat ≤ 57)

/-- Matcher for the `%H` directive of `strptime`, whose regex is
`2[0-3]|[0-1]\d|\d` (greedy alternation; backtracking can never help
because a second matched char is a digit and the following literal in the
format is `:`). Returns the parsed hour and the unconsumed characters. -/
def matchHour : List Char → Option (Nat × List Char)
  | [] => none
  | c1 :: rest1 =>
    if isDigitChar c1 then
      match rest1 with
      | c2 :: rest2 =>
        if c1 = '2' ∧ isDigitChar c2 = true ∧ charDigit c2 ≤ 3 then
          some (20 + charDigit c2, rest2)
        else if charDigit c1 ≤ 1 ∧ isDigitChar c2 = true then
          some (10 * charDigit c1 + charDigit c2, rest2)
        else
          some (charDigit c1, c2 :: rest2)
      | [] => some (charDigit c1, [])
    else none

/-- Matcher for the `%M` directive of `strptime`, regex `[0-5]\d|\d`. -/
def matchMinute : List Char → Option (Nat × List Char)
  | [] => none
  | c1 :: rest1 =>
    if isDigitChar c1 then
      match rest1 with
      | c2 :: rest2 =>
        if charDigit c1 ≤ 5 ∧ isDigitChar c2 = true then
          some (10 * charDigit c1 + charDigit c2, rest2)
        else
          some (charDigit c1, c2 :: rest2)
      | [] => some (charDigit c1, [])
    else none

/-- `datetime.strptime(s, "%H:%M").time()`: hour, a literal colon, minute,
and the whole input must be consumed (`strptime` raises `ValueError` when
`found.end()` is short of the string's length). Missing fields default to
zero, so the result has `second = 0` and `microsecond = 0`. -/
def parseHM (s : String) : Option Time :=
  match matchHour s.data with
  | none => none
  | some (h, rest) =>
    match rest with
    | ':' :: rest2 =>
      match matchMinute rest2 with
      | some (m, []) => some { hour := h, minute := m, second := 0, microsecond := 0 }
      | _ => none
    | _ => none

/-- Two-digit zero-padded decimal rendering (for values below 100). -/
def pad2 (n : Nat) : String :=
  String.mk [Char.ofNat (48 + n / 10), Char.ofNat (48 + n % 10)]

/-- `t.strftime("%H:%M")`: both fields zero-padded to two digits. -/
def formatHM (t : Time) : String :=
  pad2 t.hour ++ ":" ++ pad2 t.minute

/-- The schedule record built by `add_schedule` (Python dict with fixed
keys). `weekdays` is `none` for a one-time schedule. -/
structure Schedule where
  id : Nat
  time : Time
  content : String
  channel : Int
  created_at : String
  is_command : Bool
  active : Bool
  weekdays : Option (List Nat)
  weekday_names : List String
  is_recurring : Bool
  executed_dates : List String
deriving DecidableEq, Repr

/-- The in-memory registry `self.schedules`: an insertion-ordered mapping
from user id to that user's schedule list. -/
abbrev State := List (String × List Schedule)

/-- Dictionary lookup `self.schedules.get(user_id)`. -/
def lookupUser : State → String → Option (List Schedule)
  | [], _ => none
  | (k, v) :: rest, u => if k = u then some v else lookupUser rest u

/-- Dictionary update `self.schedules[user_id] = l` (updates the existing
key in place, otherwise appends a new key at the end, matching dict
insertion order). -/
def setUser : State → String → List Schedule → State
  | [], u, l => [(u, l)]
  | (k, v) :: rest, u, l =>
    if k = u then (u, l) :: rest else (k, v) :: setUser rest u l

/-- The user's schedule list, empty when the user has no entry. -/
def userSchedules (st : State) (u : String) : List Schedule :=
  (lookupUser st u).getD []

/-- `self.max_schedules_per_user`. -/
def maxSchedulesPerUser : Nat := 5

/-- The whitespace characters Python `str.strip()` removes (the ASCII
ones; the inputs at issue are ASCII). -/
def isSpaceChar (c : Char) : Bool :=
  c = ' ' || c = '\t' || c = '\n' || c = '\r' || c = '\x0b' || c = '\x0c'

/-- Python `str.strip()`: drop leading and trailing whitespace. -/
def pyStrip (s : String) : String :=
  String.mk (((s.data.dropWhile isSpaceChar).reverse.dropWhile isSpaceChar).reverse)

/-- Lower-case one character (ASCII letters; the day names and "all" at
issue are ASCII). -/
def lowerChar (c : Char) : Char :=
  if 65 ≤ c.toNat ∧ c.toNat ≤ 90 then Char.ofNat (c.toNat + 32) else c

/-- Python `str.lower()`. -/
def pyLower (s : String) : String := String.mk (s.data.map lowerChar)

/-- Helper for `pySplitComma`: accumulate the current part (reversed). -/
def splitCommaAux : List Char → List Char → List String
  | [], acc => [String.mk acc.reverse]
  | c :: rest, acc =>
    if c = ',' then String.mk acc.reverse :: splitCommaAux rest []
    else splitCommaAux rest (c :: acc)

/-- Python `str.split(',')`: split at every comma, keeping empty parts. -/
def pySplitComma (s : String) : List String := splitCommaAux s.data []

/-- Python `str.startswith(p)`. -/
def pyStartsWith (s p : String) : Bool := p.data.isPrefixOf s.data

/-- The seven recognized Spanish day names, `SPANISH_WEEKDAYS`
(0 = Monday ... 6 = Sunday). -/
def spanishWeekday : String → Option Nat
  | "lunes" => some 0
  | "martes" => some 1
  | "miercoles" => some 2
  | "jueves" => some 3
  | "viernes" => some 4
  | "sabado" => some 5
  | "domingo" => some 6
  | _ => none

/-- The canonical display list used when the recurrence text is "all". -/
def allDayNames : List String :=
  ["lunes", "martes", "miercoles", "jueves", "viernes", "sabado", "domingo"]

/-- The weekday-validation loop of `add_schedule`: map each token through
`SPANISH_WEEKDAYS`, failing with the first unrecognized token. -/
def parseDays : List String → Except String (List Nat)
  | [] => .ok []
  | d :: rest =>
    match spanishWeekday d with
    | none => .error d
    | some n =>
      match parseDays rest with
      | .error e => .error e
      | .ok ns => .ok (n :: ns)

/-- The whole weekday-parsing block of `add_schedule` (lines 89-109):
a missing or empty (falsy) argument means one-time; a stripped, lowered
text equal to `"all"` expands to all seven indices; otherwise the text is
split on commas, each token stripped and lowered, and validated.  Returns
`(parsed_weekdays, weekday_names)` or the offending token. -/
def parseRecurrence : Option String → Except String (Option (List Nat) × List String)
  | none => .ok (none, [])
  | some w =>
    if w = "" then .ok (none, [])
    else if pyLower (pyStrip w) = "all" then
      .ok (some [0, 1, 2, 3, 4, 5, 6], allDayNames)
    else
      let names := (pySplitComma w).map (fun d => pyLower (pyStrip d))
      match parseDays names with
      | .error d => .error d
      | .ok ns => .ok (some ns, names)

/-- The dict returned by `add_schedule`. -/
structure AddResult where
  success : Bool
  message : String
  schedule : Option Schedule
deriving DecidableEq, Repr

/-- `'Formato de hora inválido. Usa HH:MM (ej: 09:30)'`. -/
def invalidTimeMsg : String := "Formato de hora inválido. Usa HH:MM (ej: 09:30)"

/-- `f'Día inválido: {day_name}. Usa días en español o "all"'`. -/
def invalidDayMsg (d : String) : String :=
  s!"Día inválido: {d}. Usa días en español o \"all\""

/-- `f'Límite alcanzado ({self.max_schedules_per_user} schedules máximo)'`. -/
def quotaMsg : String :=
  s!"Límite alcanzado ({maxSchedulesPerUser} schedules máximo)"

/-- The failure kind `InvalidTime` of the spec's error taxonomy. -/
def AddResult.isInvalidTime (r : AddResult) : Prop :=
  r.success = false ∧ r.message = invalidTimeMsg

/-- The failure kind `InvalidWeekday` of the spec's error taxonomy. -/
def AddResult.isInvalidWeekday (r : AddResult) : Prop :=
  r.success = false ∧ ∃ d, r.message = invalidDayMsg d

/-- The failure kind `QuotaExceeded` of the spec's error taxonomy. -/
def AddResult.isQuotaExceeded (r : AddResult) : Prop :=
  r.success = false ∧ r.message = quotaMsg

/-- `if user_id not in self.schedules: self.schedules[user_id] = []`. -/
def ensureUser (st : State) (user_id : String) : State :=
  match lookupUser st user_id with
  | some _ => st
  | none => setUser st user_id []

/-- `ScheduleManager.add_schedule(user_id, time_str, content, channel,
weekdays)`.  `created_at` stands for `datetime.now().isoformat()`.
Order of checks as in the source: time parse (a `ValueError` from
`strptime` is caught and reported as the invalid-time message), weekday
validation, then the quota check against the user's full list (after
ensuring the user has an entry); on success the schedule is appended and
the confirmation message built. -/
def addSchedule (st : State) (user_id time_str content : String) (channel : Int)
    (weekdays : Option String) (created_at : String) : AddResult × State :=
  match parseHM time_str with
  | none => ({ success := false, message := invalidTimeMsg, schedule := none }, st)
  | some schedule_time =>
    match parseRecurrence weekdays with
    | .error d =>
      ({ success := false, message := invalidDayMsg d, schedule := none }, st)
    | .ok (parsed_weekdays, weekday_names) =>
      let st1 := ensureUser st user_id
      let cur := userSchedules st1 user_id
      if maxSchedulesPerUser ≤ cur.length then
        ({ success := false, message := quotaMsg, schedule := none }, st1)
      else
        let schedule_id := cur.length + 1
        let schedule : Schedule :=
          { id := schedule_id
            time := schedule_time
            content := content
            channel := channel
            created_at := created_at
            is_command := pyStartsWith (pyStrip content) "/"
            active := true
            weekdays := parsed_weekdays
            weekday_names := weekday_names
            is_recurring := parsed_weekdays.isSome
            executed_dates := [] }
        let st2 := setUser st1 user_id (cur ++ [schedule])
        let message :=
          match parsed_weekdays with
          | some pw =>
            let days_str :=
              if pw.length = 7 then "todos los días"
              else String.intercalate ", " weekday_names
            s!"Schedule #{schedule_id} creado para {time_str} los {days_str} (recurrente)"
          | none => s!"Schedule #{schedule_id} creado para {time_str} (una vez)"
        ({ success := true, message := message, schedule := some schedule }, st2)

/-- The dict returned by `delete_schedule`. -/
structure DelResult where
  success : Bool
  message : String
deriving DecidableEq, Repr

/-- The scan of `delete_schedule`: deactivate the first schedule whose id
matches and which is still active; `none` when no such schedule exists. -/
def deleteFirst : List Schedule → Nat → Option (List Schedule)
  | [], _ => none
  | s :: rest, sid =>
    if s.id = sid ∧ s.active = true then
      some ({ s with active := false } :: rest)
    else
      match deleteFirst rest sid with
      | none => none
      | some rest2 => some (s :: rest2)

/-- `ScheduleManager.delete_schedule(user_id, schedule_id)`. -/
def deleteSchedule (st : State) (user_id : String) (schedule_id : Nat) :
    DelResult × State :=
  match lookupUser st user_id with
  | none => ({ success := false, message := "No tienes schedules" }, st)
  | some l =>
    match deleteFirst l schedule_id with
    | none =>
      ({ success := false, message := s!"Schedule #{schedule_id} no encontrado" }, st)
    | some l2 =>
      ({ success := true, message := s!"Schedule #{schedule_id} eliminado" },
       setUser st user_id l2)

/-- `ScheduleManager.list_schedules(user_id)`: active schedules only, in
stored order. -/
def listSchedules (st : State) (user_id : String) : List Schedule :=
  match lookupUser st user_id with
  | none => []
  | some l => l.filter (fun s => s.active)

/-- The ambient clock values `get_due_schedules` reads from
`datetime.now()`: the current time-of-day, the weekday index
(0 = Monday ... 6 = Sunday) and the `YYYY-MM-DD` date string. -/
structure TickParams where
  now : Time
  wd : Nat
  today : String
deriving DecidableEq, Repr

/-- Truthiness of the `weekdays` field (`schedule.get('weekdays')` in a
boolean context): `None` and the empty list are falsy. -/
def weekdaysTruthy : Option (List Nat) → Bool
  | none => false
  | some l => !l.isEmpty

/-- The per-schedule contribution to the due list in one pass of
`get_due_schedules`: skipped when inactive or when the minute-truncated
time differs from the current minute; a recurring schedule (with a truthy
weekday list) is due iff the current weekday is in its list and is emitted
as an unmodified copy; a one-time schedule not yet executed today is
emitted as a copy that (through the shared `executed_dates` list object of
the shallow `dict.copy`) already carries today's date, with `active` still
true. -/
def dueOfSchedule (p : TickParams) (u : String) (s : Schedule) :
    List (String × Schedule) :=
  if s.active = false then []
  else if minuteTrunc s.time ≠ minuteTrunc p.now then []
  else if s.is_recurring = true ∧ weekdaysTruthy s.weekdays = true then
    if p.wd ∈ s.weekdays.getD [] then [(u, s)] else []
  else if s.is_recurring = false then
    if p.today ∈ s.executed_dates then []
    else [(u, { s with executed_dates := s.executed_dates ++ [p.today] })]
  else []

/-- The in-place mutation `get_due_schedules` performs on one stored
schedule: only a firing one-time schedule changes — today's date is
appended to `executed_dates` and `active` is set to false. -/
def stepSchedule (p : TickParams) (s : Schedule) : Schedule :=
  if s.active = false then s
  else if minuteTrunc s.time ≠ minuteTrunc p.now then s
  else if s.is_recurring = true ∧ weekdaysTruthy s.weekdays = true then s
  else if s.is_recurring = false then
    if p.today ∈ s.executed_dates then s
    else { s with executed_dates := s.executed_dates ++ [p.today], active := false }
  else s

/-- `ScheduleManager.get_due_schedules()`: iterate users in dict order and
each user's schedules in list order, collecting due copies (tagged with
their `user_id`) and applying the one-time deactivation in place. -/
def getDueSchedules (st : State) (p : TickParams) :
    List (String × Schedule) × State :=
  (st.flatMap (fun q => q.2.flatMap (dueOfSchedule p q.1)),
   st.map (fun q => (q.1, q.2.map (stepSchedule p))))

/-- One schedule entry of the JSON file: identical to `Schedule` except
that `time` is the `HH:MM` string produced by `save_schedules`. -/
structure StoredSchedule where
  id : Nat
  time : String
  content : String
  channel : Int
  created_at : String
  is_command : Bool
  active : Bool
  weekdays : Option (List Nat)
  weekday_names : List String
  is_recurring : Bool
  executed_dates : List String
deriving DecidableEq, Repr

/-- The `schedule_copy` built by `save_schedules`: all fields copied, the
time rendered with `strftime('%H:%M')`. -/
def storeSchedule (s : Schedule) : StoredSchedule :=
  { id := s.id
    time := formatHM s.time
    content := s.content
    channel := s.channel
    created_at := s.created_at
    is_command := s.is_command
    active := s.active
    weekdays := s.weekdays
    weekday_names := s.weekday_names
    is_recurring := s.is_recurring
    executed_dates := s.executed_dates }

/-- `ScheduleManager.save_schedules` (the data it writes to the file). -/
def saveSchedules (st : State) : List (String × List StoredSchedule) :=
  st.map (fun q => (q.1, q.2.map storeSchedule))

/-- One entry of `load_schedules`: parse the time string back with
`strptime('%H:%M')`; a failure raises and aborts the whole load. -/
def loadSchedule (d : StoredSchedule) : Option Schedule :=
  (parseHM d.time).map (fun t =>
    { id := d.id
      time := t
      content := d.content
      channel := d.channel
      created_at := d.created_at
      is_command := d.is_command
      active := d.active
      weekdays := d.weekdays
      weekday_names := d.weekday_names
      is_recurring := d.is_recurring
      executed_dates := d.executed_dates })

/-- The inner loop of `load_schedules` over one user's entries. -/
def loadUserSchedules : List StoredSchedule → Option (List Schedule)
  | [] => some []
  | d :: rest =>
    match loadSchedule d with
    | none => none
    | some s => (loadUserSchedules rest).map (fun l => s :: l)

/-- `ScheduleManager.load_schedules` on file data: rebuild the mapping in
file order; `none` models the exception path (which resets the registry to
empty). -/
def loadSchedules : List (String × List StoredSchedule) → Option State
  | [] => some []
  | (u, l) :: rest =>
    match loadUserSchedules l with
    | none => none
    | some l2 => (loadSchedules rest).map (fun st => (u, l2) :: st)

/-- The operations that can mutate the registry during a run. -/
inductive Op where
  | addOp (u ts c : String) (ch : Int) (w : Option String) (ca : String)
  | delOp (u : String) (sid : Nat)
  | tickOp (p : TickParams)
deriving Repr

/-- State transition of one operation. -/
def applyOp (st : State) : Op → State
  | .addOp u ts c ch w ca => (addSchedule st u ts c ch w ca).2
  | .delOp u sid => (deleteSchedule st u sid).2
  | .tickOp p => (getDueSchedules st p).2

/-- Run a sequence of operations from a starting state. -/
def runOps (st : State) (ops : List Op) : State :=
  ops.foldl applyOp st

/-- Whether one operation is a successful `add` for user `u` on state
`st` (1 or 0). -/
def addsOne (st : State) (op : Op) (u : String) : Nat :=
  match op with
  | .addOp u2 ts c ch w ca =>
    if u2 = u ∧ (addSchedule st u2 ts c ch w ca).1.success = true then 1 else 0
  | _ => 0

/-- Number of successful `add` operations for user `u` along a run: the
spec's "count of all schedules ever created" for `u`. -/
def countAdds : State → List Op → String → Nat
  | _, [], _ => 0
  | st, op :: rest, u => addsOne st op u + countAdds (applyOp st op) rest u

/-- The record `add_schedule` appends on a successful call on state `st`
(derived form, stated against the pre-state). -/
def builtSchedule (st : State) (u c : String) (ch : Int) (ca : String)
    (t : Time) (pw : Option (List Nat)) (names : List String) : Schedule :=
  { id := (userSchedules st u).length + 1
    time := t
    content := c
    channel := ch
    created_at := ca
    is_command := pyStartsWith (pyStrip c) "/"
    active := true
    weekdays := pw
    weekday_names := names
    is_recurring := pw.isSome
    executed_dates := [] }

/-- The schedule stored at position `i` of user `u`'s list. -/
def entryAt (st : State) (u : String) (i : Nat) : Option Schedule :=
  (lookupUser st u).bind (fun l => l[i]?)

/-- The firing condition of the one-time branch of `get_due_schedules`
for a single schedule: active, minute-truncated time equal to the current
minute, and not yet executed today. -/
def onetimeFires (s : Schedule) (p : TickParams) : Bool :=
  s.active && decide (minuteTrunc s.time = minuteTrunc p.now) &&
    decide (p.today ∉ s.executed_dates)

/-- The due-set copy emitted for a firing one-time schedule (its shallow
copy shares the `executed_dates` list, so the copy already carries today's
date; `active` is still true on the copy). -/
def firedDueCopy (s : Schedule) (today : String) : Schedule :=
  { s with executed_dates := s.executed_dates ++ [today] }

/-- The stored record of a one-time schedule after it fires: today's date
appended and `active` set to false. -/
def firedStoredCopy (s : Schedule) (today : String) : Schedule :=
  { s with executed_dates := s.executed_dates ++ [today], active := false }

/-- Across a sequence of resolver ticks, how often the schedule at
position `i` of user `u` satisfies the one-time firing condition. -/
def countFires (st : State) (ps : List TickParams) (u : String) (i : Nat) : Nat :=
  match ps with
  | [] => 0
  | p :: rest =>
    (match entryAt st u i with
     | some s => if onetimeFires s p = true then 1 else 0
     | none => 0) + countFires (getDueSchedules st p).2 rest u i

/-- Well-formedness of a time value as produced by `strptime('%H:%M')`:
bounded fields, zero seconds and microseconds. -/
def TimeWF (t : Time) : Prop :=
  t.hour < 24 ∧ t.minute < 60 ∧ t.second = 0 ∧ t.microsecond = 0

/-- Every schedule time stored in the registry is well-formed. -/
def StateWF (st : State) : Prop :=
  ∀ q ∈ st, ∀ s ∈ q.2, TimeWF s.time

/-- `ScheduleManager.__init__` directory logic, over an abstract
filesystem given as the list of existing paths (`os.path.exists`):
`data_dir = 'data' if os.path.exists('data') else '.'`. -/
def chooseDataDir (fs : List String) : String :=
  if "data" ∈ fs then "data" else "."

/-- `if not os.path.exists(data_dir): os.makedirs(data_dir, exist_ok=True)`:
the filesystem after the constructor's directory-creation step. -/
def makeDirsStep (fs : List String) : List String :=
  if chooseDataDir fs ∈ fs then fs else chooseDataDir fs :: fs

/-- `self.data_file = os.path.join(data_dir, 'schedules.json')`. -/
def defaultDataFile (fs : List String) : String :=
  chooseDataDir fs ++ "/schedules.json"

/-- Directory component of a slash-joined path (`os.path.dirname`): the
characters before the last slash. -/
def dirOfPath (p : String) : String :=
  String.mk (((p.data.reverse.dropWhile (fun c => c ≠ '/')).drop 1).reverse)

/-! ### Concrete sample inputs used by the witnesses -/

/-- Five one-time adds for user "u1", then all five deleted. -/
def sampleOps : List Op :=
  [Op.addOp "u1" "09:30" "a" 0 none "t1",
   Op.addOp "u1" "09:30" "b" 0 none "t2",
   Op.addOp "u1" "09:30" "c" 0 none "t3",
   Op.addOp "u1" "09:30" "d" 0 none "t4",
   Op.addOp "u1" "09:30" "e" 0 none "t5",
   Op.delOp "u1" 1, Op.delOp "u1" 2, Op.delOp "u1" 3,
   Op.delOp "u1" 4, Op.delOp "u1" 5]

/-- The record built by `add_schedule` on an empty registry for
`("u1", "09:30", "x", 0, None)` with creation timestamp "t". -/
def sampleSchedule : Schedule :=
  { id := 1, time := { hour := 9, minute := 30, second := 0, microsecond := 0 },
    content := "x", channel := 0, created_at := "t", is_command := false,
    active := true, weekdays := none, weekday_names := [],
    is_recurring := false, executed_dates := [] }

/-- A recurring Monday/Wednesday schedule at 08:00. -/
def recurringSample : Schedule :=
  { id := 1, time := { hour := 8, minute := 0, second := 0, microsecond := 0 },
    content := "/ping", channel := 0, created_at := "t", is_command := true,
    active := true, weekdays := some [0, 2], weekday_names := ["lunes", "miercoles"],
    is_recurring := true, executed_dates := [] }

/-- A resolver tick at 09:30:45 on Monday. -/
def sampleTick : TickParams :=
  { now := { hour := 9, minute := 30, second := 45, microsecond := 3 }, wd := 0,
    today := "2026-10-12" }

/-- A resolver tick at 08:00 on a Monday. -/
def tickMon0800 : TickParams :=
  { now := { hour := 8, minute := 0, second := 30, microsecond := 0 }, wd := 0,
    today := "2026-10-12" }

/-- A resolver tick at 08:00 on a Tuesday. -/
def tickTue0800 : TickParams :=
  { now := { hour := 8, minute := 0, second := 2, microsecond := 0 }, wd := 1,
    today := "2026-10-13" }

/-! ### Basic lemmas about the registry mapping -/

theorem lookupUser_set_self (st : State) (u : String) (l : List Schedule) :
    lookupUser (setUser st u l) u = some l := by
  induction st with
  | nil => simp [setUser, lookupUser]
  | cons q rest ih =>
    obtain ⟨k, v⟩ := q
    by_cases hk : k = u
    · simp [setUser, hk, lookupUser]
    · simp [setUser, hk, lookupUser, ih]

theorem lookupUser_set_ne (st : State) (u v : String) (l : List Schedule)
    (h : v ≠ u) : lookupUser (setUser st u l) v = lookupUser st v := by
  have hu : u ≠ v := Ne.symm h
  induction st with
  | nil => simp [setUser, lookupUser, hu]
  | cons q rest ih =>
    obtain ⟨k, v2⟩ := q
    by_cases hk : k = u
    · subst hk
      simp [setUser, lookupUser, hu]
    · simp only [setUser, if_neg hk, lookupUser]
      by_cases hv : k = v
      · simp [hv]
      · simp [hv, ih]

theorem lookupUser_map (st : State) (f : List Schedule → List Schedule) (u : String) :
    lookupUser (st.map (fun q => (q.1, f q.2))) u = (lookupUser st u).map f := by
  induction st with
  | nil => simp [lookupUser]
  | cons q rest ih =>
    obtain ⟨k, v⟩ := q
    by_cases hk : k = u
    · simp [lookupUser, hk]
    · simp [lookupUser, hk, ih]

theorem lookupUser_mem (st : State) (u : String) (l : List Schedule)
    (h : lookupUser st u = some l) : (u, l) ∈ st := by
  induction st with
  | nil => simp [lookupUser] at h
  | cons q rest ih =>
    obtain ⟨k, v⟩ := q
    by_cases hk : k = u
    · subst hk
      simp [lookupUser] at h
      simp [h]
    · simp [lookupUser, hk] at h
      exact List.mem_cons_of_mem _ (ih h)

theorem mem_setUser (st : State) (u : String) (l : List Schedule)
    (q : String × List Schedule) (h : q ∈ setUser st u l) :
    q ∈ st ∨ q.2 = l := by
  induction st with
  | nil =>
    simp [setUser] at h
    simp [h]
  | cons p rest ih =>
    obtain ⟨k, v⟩ := p
    by_cases hk : k = u
    · simp [setUser, hk] at h
      rcases h with h | h
      · simp [h]
      · exact Or.inl (List.mem_cons_of_mem _ h)
    · simp [setUser, hk] at h
      rcases h with h | h
      · exact Or.inl (by simp [h])
      · rcases ih h with h2 | h2
        · exact Or.inl (List.mem_cons_of_mem _ h2)
        · exact Or.inr h2

theorem userSchedules_set_self (st : State) (u : String) (l : List Schedule) :
    userSchedules (setUser st u l) u = l := by
  simp [userSchedules, lookupUser_set_self]

theorem userSchedules_set_ne (st : State) (u v : String) (l : List Schedule)
    (h : v ≠ u) : userSchedules (setUser st u l) v = userSchedules st v := by
  simp [userSchedules, lookupUser_set_ne st u v l h]

theorem userSchedules_eq_of_lookup_none (st : State) (u : String)
    (h : lookupUser st u = none) : userSchedules st u = [] := by
  simp [userSchedules, h]

theorem lookupUser_eq_some_userSchedules (st : State) (u : String)
    (h : userSchedules st u ≠ []) :
    lookupUser st u = some (userSchedules st u) := by
  cases hh : lookupUser st u with
  | none => exact absurd (userSchedules_eq_of_lookup_none st u hh) h
  | some l => simp [userSchedules, hh]

/-! ### Bounds for the time parser, and the `HH:MM` round trip -/

theorem charDigit_le_nine (c : Char) (h : isDigitChar c = true) : charDigit c ≤ 9 := by
  simp only [isDigitChar, decide_eq_true_eq] at h
  simp only [charDigit]
  omega

theorem matchHour_lt (cs : List Char) (h : Nat) (rest : List Char)
    (hm : matchHour cs = some (h, rest)) : h < 24 := by
  match cs with
  | [] => simp [matchHour] at hm
  | c1 :: rest1 =>
    by_cases hd : isDigitChar c1 = true
    · match rest1 with
      | c2 :: rest2 =>
        simp only [matchHour, hd, if_true] at hm
        split at hm
        · rename_i hc
          obtain ⟨rfl, rfl⟩ : 20 + charDigit c2 = h ∧ rest2 = rest := by
            simpa using hm
          omega
        · split at hm
          · rename_i hc
            obtain ⟨rfl, rfl⟩ : 10 * charDigit c1 + charDigit c2 = h ∧ rest2 = rest := by
              simpa using hm
            have := charDigit_le_nine c2 hc.2
            omega
          · obtain ⟨rfl, rfl⟩ : charDigit c1 = h ∧ c2 :: rest2 = rest := by
              simpa using hm
            have := charDigit_le_nine c1 hd
            omega
      | [] =>
        simp only [matchHour, hd, if_true] at hm
        obtain ⟨rfl, rfl⟩ : charDigit c1 = h ∧ ([] : List Char) = rest := by
          simpa using hm
        have := charDigit_le_nine c1 hd
        omega
    · simp [matchHour, hd] at hm

theorem matchMinute_lt (cs : List Char) (m : Nat) (rest : List Char)
    (hm : matchMinute cs = some (m, rest)) : m < 60 := by
  match cs with
  | [] => simp [matchMinute] at hm
  | c1 :: rest1 =>
    by_cases hd : isDigitChar c1 = true
    · match rest1 with
      | c2 :: rest2 =>
        simp only [matchMinute, hd, if_true] at hm
        split at hm
        · rename_i hc
          obtain ⟨rfl, rfl⟩ : 10 * charDigit c1 + charDigit c2 = m ∧ rest2 = rest := by
            simpa using hm
          have := charDigit_le_nine c2 hc.2
          omega
        · obtain ⟨rfl, rfl⟩ : charDigit c1 = m ∧ c2 :: rest2 = rest := by
            simpa using hm
          have := charDigit_le_nine c1 hd
          omega
      | [] =>
        simp only [matchMinute, hd, if_true] at hm
        obtain ⟨rfl, rfl⟩ : charDigit c1 = m ∧ ([] : List Char) = rest := by
          simpa using hm
        have := charDigit_le_nine c1 hd
        omega
    · simp [matchMinute, hd] at hm

theorem parseHM_wf (s : String) (t : Time) (h : parseHM s = some t) : TimeWF t := by
  unfold parseHM at h
  split at h
  · exact absurd h (by simp)
  · rename_i hv rest hh
    split at h
    · rename_i rest2
      split at h
      · rename_i mv hm
        obtain rfl : ({ hour := hv, minute := mv, second := 0, microsecond := 0 } : Time) = t := by
          simpa using h
        exact ⟨matchHour_lt _ _ _ hh, matchMinute_lt _ _ _ hm, rfl, rfl⟩
      · exact absurd h (by simp)
    · exact absurd h (by simp)

theorem time_roundtrip_aux :
    ∀ h < 24, ∀ m < 60,
      parseHM (formatHM { hour := h, minute := m, second := 0, microsecond := 0 }) =
        some { hour := h, minute := m, second := 0, microsecond := 0 } := by
  decide

theorem time_roundtrip (t : Time) (h : TimeWF t) :
    parseHM (formatHM t) = some t := by
  obtain ⟨h1, h2, h3, h4⟩ := h
  obtain ⟨hh, mm, ss, uu⟩ := t
  simp only at h1 h2 h3 h4
  subst h3 h4
  exact time_roundtrip_aux hh h1 mm h2

/-! ### Case analysis of `addSchedule` -/

theorem userSchedules_ensure (st : State) (u v : String) :
    userSchedules (ensureUser st u) v = userSchedules st v := by
  unfold ensureUser
  cases hh : lookupUser st u with
  | some l => rfl
  | none =>
    by_cases hv : v = u
    · subst hv
      rw [userSchedules_set_self, userSchedules_eq_of_lookup_none st v hh]
    · exact userSchedules_set_ne st u v [] hv

theorem ensureUser_eq_of_ne_nil (st : State) (u : String)
    (h : userSchedules st u ≠ []) : ensureUser st u = st := by
  unfold ensureUser
  rw [lookupUser_eq_some_userSchedules st u h]

theorem addSchedule_invalidTime (st : State) (u ts c : String) (ch : Int)
    (w : Option String) (ca : String) (h : parseHM ts = none) :
    addSchedule st u ts c ch w ca =
      ({ success := false, message := invalidTimeMsg, schedule := none }, st) := by
  unfold addSchedule
  rw [h]

theorem addSchedule_invalidDay (st : State) (u ts c : String) (ch : Int)
    (w : Option String) (ca : String) (t : Time) (d : String)
    (h : parseHM ts = some t) (h2 : parseRecurrence w = .error d) :
    addSchedule st u ts c ch w ca =
      ({ success := false, message := invalidDayMsg d, schedule := none }, st) := by
  unfold addSchedule
  rw [h, h2]

theorem addSchedule_quota (st : State) (u ts c : String) (ch : Int)
    (w : Option String) (ca : String) (t : Time) (pr : Option (List Nat) × List String)
    (h : parseHM ts = some t) (h2 : parseRecurrence w = .ok pr)
    (h3 : maxSchedulesPerUser ≤ (userSchedules st u).length) :
    addSchedule st u ts c ch w ca =
      ({ success := false, message := quotaMsg, schedule := none }, st) := by
  obtain ⟨pw, names⟩ := pr
  have hne : userSchedules st u ≠ [] := by
    intro hl
    rw [hl] at h3
    simp [maxSchedulesPerUser] at h3
  have hens : ensureUser st u = st := ensureUser_eq_of_ne_nil st u hne
  unfold addSchedule
  rw [h, h2]
  simp only [hens]
  rw [if_pos h3]

theorem addSchedule_success (st : State) (u ts c : String) (ch : Int)
    (w : Option String) (ca : String) (t : Time) (pw : Option (List Nat)) (names : List String)
    (h : parseHM ts = some t) (h2 : parseRecurrence w = .ok (pw, names))
    (h3 : (userSchedules st u).length < maxSchedulesPerUser) :
    (addSchedule st u ts c ch w ca).1.success = true ∧
    (addSchedule st u ts c ch w ca).1.schedule =
      some (builtSchedule st u c ch ca t pw names) ∧
    (addSchedule st u ts c ch w ca).2 =
      setUser (ensureUser st u) u
        (userSchedules st u ++ [builtSchedule st u c ch ca t pw names]) := by
  unfold addSchedule
  rw [h, h2]
  simp only [userSchedules_ensure]
  rw [if_neg (not_le.mpr h3)]
  exact ⟨rfl, rfl, rfl⟩

theorem addSchedule_fail_state (st : State) (u ts c : String) (ch : Int)
    (w : Option String) (ca : String)
    (h : (addSchedule st u ts c ch w ca).1.success = false) :
    (addSchedule st u ts c ch w ca).2 = st := by
  cases hp : parseHM ts with
  | none => rw [addSchedule_invalidTime st u ts c ch w ca hp]
  | some t =>
    cases hr : parseRecurrence w with
    | error d => rw [addSchedule_invalidDay st u ts c ch w ca t d hp hr]
    | ok pr =>
      obtain ⟨pw, names⟩ := pr
      by_cases hq : maxSchedulesPerUser ≤ (userSchedules st u).length
      · rw [addSchedule_quota st u ts c ch w ca t (pw, names) hp hr hq]
      · have hs := addSchedule_success st u ts c ch w ca t pw names hp hr (not_le.mp hq)
        rw [hs.1] at h
        simp at h

theorem userSchedules_add_success (st : State) (u ts c : String) (ch : Int)
    (w : Option String) (ca : String) (t : Time) (pw : Option (List Nat)) (names : List String)
    (h : parseHM ts = some t) (h2 : parseRecurrence w = .ok (pw, names))
    (h3 : (userSchedules st u).length < maxSchedulesPerUser) :
    userSchedules (addSchedule st u ts c ch w ca).2 u =
      userSchedules st u ++ [builtSchedule st u c ch ca t pw names] := by
  rw [(addSchedule_success st u ts c ch w ca t pw names h h2 h3).2.2,
    userSchedules_set_self]

theorem userSchedules_add_ne (st : State) (u v ts c : String) (ch : Int)
    (w : Option String) (ca : String) (hv : v ≠ u) :
    userSchedules (addSchedule st u ts c ch w ca).2 v = userSchedules st v := by
  cases hp : parseHM ts with
  | none => rw [addSchedule_invalidTime st u ts c ch w ca hp]
  | some t =>
    cases hr : parseRecurrence w with
    | error d => rw [addSchedule_invalidDay st u ts c ch w ca t d hp hr]
    | ok pr =>
      obtain ⟨pw, names⟩ := pr
      by_cases hq : maxSchedulesPerUser ≤ (userSchedules st u).length
      · rw [addSchedule_quota st u ts c ch w ca t (pw, names) hp hr hq]
      · rw [(addSchedule_success st u ts c ch w ca t pw names hp hr (not_le.mp hq)).2.2,
          userSchedules_set_ne _ _ _ _ hv, userSchedules_ensure]

/-! ### Case analysis of `deleteSchedule` -/

theorem deleteFirst_none_iff (l : List Schedule) (sid : Nat) :
    deleteFirst l sid = none ↔ ∀ s ∈ l, ¬(s.id = sid ∧ s.active = true) := by
  induction l with
  | nil => simp [deleteFirst]
  | cons s rest ih =>
    by_cases hs : s.id = sid ∧ s.active = true
    · simp only [deleteFirst, if_pos hs]
      simp [hs]
    · simp only [deleteFirst, if_neg hs]
      cases hd : deleteFirst rest sid with
      | none =>
        simp only [List.mem_cons]
        constructor
        · intro _ s2 hm
          rcases hm with rfl | hm
          · exact hs
          · exact (ih.mp hd) s2 hm
        · intro _
          trivial
      | some l2 =>
        constructor
        · intro hcontra
          cases hcontra
        · intro hall
          have hnone : deleteFirst rest sid = none :=
            ih.mpr (fun s2 hm => hall s2 (List.mem_cons_of_mem _ hm))
          rw [hnone] at hd
          cases hd
  
theorem deleteFirst_some_decomp (l : List Schedule) (sid : Nat) (l2 : List Schedule)
    (h : deleteFirst l sid = some l2) :
    ∃ l1 s l3, l = l1 ++ s :: l3 ∧
      (∀ x ∈ l1, ¬(x.id = sid ∧ x.active = true)) ∧
      s.id = sid ∧ s.active = true ∧
      l2 = l1 ++ { s with active := false } :: l3 := by
  induction l generalizing l2 with
  | nil => simp [deleteFirst] at h
  | cons s rest ih =>
    by_cases hs : s.id = sid ∧ s.active = true
    · simp only [deleteFirst, if_pos hs, Option.some.injEq] at h
      exact ⟨[], s, rest, by simp, by simp, hs.1, hs.2, h.symm⟩
    · simp only [deleteFirst, if_neg hs] at h
      cases hd : deleteFirst rest sid with
      | none =>
        rw [hd] at h
        cases h
      | some r2 =>
        rw [hd] at h
        obtain rfl : l2 = s :: r2 := by simpa using h.symm
        obtain ⟨l1, s2, l3, hrest, hl1, hid, hact, hr2⟩ := ih r2 hd
        refine ⟨s :: l1, s2, l3, by simp [hrest], ?_, hid, hact, by simp [hr2]⟩
        intro x hx
        rcases List.mem_cons.mp hx with rfl | hx2
        · exact hs
        · exact hl1 x hx2

theorem userSchedules_of_lookup (st : State) (u : String) (l : List Schedule)
    (h : lookupUser st u = some l) : userSchedules st u = l := by
  simp [userSchedules, h]

theorem deleteSchedule_success_iff (st : State) (u : String) (sid : Nat) :
    (deleteSchedule st u sid).1.success = true ↔
      ∃ s ∈ userSchedules st u, s.id = sid ∧ s.active = true := by
  unfold deleteSchedule
  cases hl : lookupUser st u with
  | none =>
    rw [userSchedules_eq_of_lookup_none st u hl]
    simp
  | some l =>
    rw [userSchedules_of_lookup st u l hl]
    simp only [hl]
    cases hd : deleteFirst l sid with
    | none =>
      simp only [hd]
      constructor
      · intro hcontra
        simp at hcontra
      · intro ⟨s, hm, hid, hact⟩
        exact absurd ⟨hid, hact⟩ ((deleteFirst_none_iff l sid).mp hd s hm)
    | some l2 =>
      simp only [hd]
      constructor
      · intro _
        obtain ⟨l1, s, l3, hdec, _, hid, hact, _⟩ := deleteFirst_some_decomp l sid l2 hd
        exact ⟨s, by rw [hdec]; simp, hid, hact⟩
      · intro _
        trivial

theorem deleteSchedule_fail_state (st : State) (u : String) (sid : Nat)
    (h : (deleteSchedule st u sid).1.success = false) :
    (deleteSchedule st u sid).2 = st := by
  unfold deleteSchedule at h ⊢
  cases hl : lookupUser st u with
  | none => rfl
  | some l =>
    simp only [hl] at h ⊢
    cases hd : deleteFirst l sid with
    | none => simp only [hd]
    | some l2 =>
      simp only [hd] at h
      exact absurd h (by simp)

theorem deleteSchedule_succ_state (st : State) (u : String) (sid : Nat) (l l2 : List Schedule)
    (hl : lookupUser st u = some l) (hd : deleteFirst l sid = some l2) :
    (deleteSchedule st u sid).1.success = true ∧
    (deleteSchedule st u sid).2 = setUser st u l2 := by
  unfold deleteSchedule
  simp only [hl, hd]
  exact ⟨trivial, trivial⟩

theorem userSchedules_delete_map (st : State) (u : String) (sid : Nat) (v : String)
    {α : Type} (f : Schedule → α)
    (hf : ∀ s, f { s with active := false } = f s) :
    (userSchedules (deleteSchedule st u sid).2 v).map f =
      (userSchedules st v).map f := by
  unfold deleteSchedule
  cases hl : lookupUser st u with
  | none => rfl
  | some l =>
    simp only [hl]
    cases hd : deleteFirst l sid with
    | none => simp only [hd]
    | some l2 =>
      simp only [hd]
      by_cases hv : v = u
      · subst hv
        rw [userSchedules_set_self, userSchedules_of_lookup st v l hl]
        obtain ⟨l1, s, l3, hdec, _, _, _, hl2⟩ := deleteFirst_some_decomp l sid l2 hd
        rw [hdec, hl2]
        simp [hf]
      · rw [userSchedules_set_ne st u v l2 hv]

theorem userSchedules_delete_length (st : State) (u : String) (sid : Nat) (v : String) :
    (userSchedules (deleteSchedule st u sid).2 v).length =
      (userSchedules st v).length := by
  have h := userSchedules_delete_map st u sid v (fun s => s.id) (fun s => rfl)
  calc (userSchedules (deleteSchedule st u sid).2 v).length
      = ((userSchedules (deleteSchedule st u sid).2 v).map (fun s => s.id)).length := by
        rw [List.length_map]
    _ = ((userSchedules st v).map (fun s => s.id)).length := by rw [h]
    _ = (userSchedules st v).length := by rw [List.length_map]

/-! ### Case analysis of the resolver -/

theorem stepSchedule_inactive (p : TickParams) (s : Schedule) (h : s.active = false) :
    stepSchedule p s = s := by
  unfold stepSchedule
  rw [if_pos h]

theorem stepSchedule_proj (p : TickParams) (s : Schedule) :
    (stepSchedule p s).id = s.id ∧ (stepSchedule p s).time = s.time ∧
      (stepSchedule p s).is_recurring = s.is_recurring := by
  unfold stepSchedule
  repeat' split
  all_goals exact ⟨rfl, rfl, rfl⟩

theorem stepSchedule_fires (p : TickParams) (s : Schedule)
    (hr : s.is_recurring = false) (hf : onetimeFires s p = true) :
    stepSchedule p s = firedStoredCopy s p.today := by
  unfold onetimeFires at hf
  simp only [Bool.and_eq_true, decide_eq_true_eq] at hf
  obtain ⟨⟨ha, hm⟩, he⟩ := hf
  unfold stepSchedule firedStoredCopy
  rw [if_neg (by simp [ha]), if_neg (by simp [hm]), if_neg (by simp [hr]),
    if_pos hr, if_neg he]

theorem stepSchedule_onetime_notfires (p : TickParams) (s : Schedule)
    (hr : s.is_recurring = false) (hf : onetimeFires s p = false) :
    stepSchedule p s = s := by
  unfold onetimeFires at hf
  unfold stepSchedule
  by_cases ha : s.active = false
  · rw [if_pos ha]
  · rw [if_neg ha]
    have ha2 : s.active = true := by
      revert ha
      cases s.active <;> simp
    by_cases hm : minuteTrunc s.time = minuteTrunc p.now
    · rw [if_neg (by simp [hm]), if_neg (by simp [hr]), if_pos hr]
      have he : p.today ∈ s.executed_dates := by
        rw [ha2] at hf
        simp only [Bool.true_and, Bool.and_eq_false_iff, decide_eq_false_iff_not,
          not_not] at hf
        rcases hf with hf | hf
        · exact absurd hm hf
        · exact hf
      rw [if_pos he]
    · rw [if_pos hm]

theorem dueOfSchedule_inactive (p : TickParams) (u : String) (s : Schedule)
    (h : s.active = false) : dueOfSchedule p u s = [] := by
  unfold dueOfSchedule
  rw [if_pos h]

theorem dueOfSchedule_fires (p : TickParams) (u : String) (s : Schedule)
    (hr : s.is_recurring = false) (hf : onetimeFires s p = true) :
    dueOfSchedule p u s = [(u, firedDueCopy s p.today)] := by
  unfold onetimeFires at hf
  simp only [Bool.and_eq_true, decide_eq_true_eq] at hf
  obtain ⟨⟨ha, hm⟩, he⟩ := hf
  unfold dueOfSchedule firedDueCopy
  rw [if_neg (by simp [ha]), if_neg (by simp [hm]), if_neg (by simp [hr]),
    if_pos hr, if_neg he]

theorem dueOfSchedule_recurring (p : TickParams) (u : String) (s : Schedule)
    (l : List Nat) (hr : s.is_recurring = true) (hw : s.weekdays = some l)
    (hl : l ≠ []) (ha : s.active = true)
    (hm : minuteTrunc s.time = minuteTrunc p.now) :
    dueOfSchedule p u s = if p.wd ∈ l then [(u, s)] else [] := by
  unfold dueOfSchedule
  rw [if_neg (by simp [ha]), if_neg (by simp [hm]),
    if_pos ⟨hr, by simp [weekdaysTruthy, hw, hl]⟩]
  rw [hw]
  rfl

theorem stepSchedule_recurring (p : TickParams) (s : Schedule)
    (l : List Nat) (hr : s.is_recurring = true) (hw : s.weekdays = some l)
    (hl : l ≠ []) : stepSchedule p s = s := by
  unfold stepSchedule
  by_cases ha : s.active = false
  · rw [if_pos ha]
  · rw [if_neg ha]
    by_cases hm : minuteTrunc s.time = minuteTrunc p.now
    · rw [if_neg (by simp [hm]), if_pos ⟨hr, by simp [weekdaysTruthy, hw, hl]⟩]
    · rw [if_pos hm]

theorem mem_getDue_of_mem (st : State) (p : TickParams) (u : String)
    (l : List Schedule) (s : Schedule) (x : String × Schedule)
    (hl : lookupUser st u = some l) (hs : s ∈ l) (hx : x ∈ dueOfSchedule p u s) :
    x ∈ (getDueSchedules st p).1 := by
  unfold getDueSchedules
  exact List.mem_flatMap.mpr ⟨(u, l), lookupUser_mem st u l hl,
    List.mem_flatMap.mpr ⟨s, hs, hx⟩⟩

theorem entryAt_tick (st : State) (p : TickParams) (u : String) (i : Nat) :
    entryAt (getDueSchedules st p).2 u i = (entryAt st u i).map (stepSchedule p) := by
  unfold entryAt getDueSchedules
  rw [lookupUser_map]
  cases lookupUser st u with
  | none => rfl
  | some l => simp [List.getElem?_map]

theorem userSchedules_tick (st : State) (p : TickParams) (v : String) :
    userSchedules (getDueSchedules st p).2 v =
      (userSchedules st v).map (stepSchedule p) := by
  unfold getDueSchedules userSchedules
  rw [lookupUser_map]
  cases lookupUser st v <;> rfl

theorem countFires_inactive (ps : List TickParams) (st : State) (u : String)
    (i : Nat) (s : Schedule) (h : entryAt st u i = some s)
    (ha : s.active = false) : countFires st ps u i = 0 := by
  induction ps generalizing st with
  | nil => rfl
  | cons p rest ih =>
    unfold countFires
    have h2 : entryAt (getDueSchedules st p).2 u i = some s := by
      rw [entryAt_tick, h]
      simp [stepSchedule_inactive p s ha]
    have hf : onetimeFires s p = false := by
      unfold onetimeFires
      rw [ha]
      simp
    simp [h, hf, ih _ h2]

theorem countFires_le_one (ps : List TickParams) (st : State) (u : String)
    (i : Nat) (s : Schedule) (h : entryAt st u i = some s)
    (hr : s.is_recurring = false) : countFires st ps u i ≤ 1 := by
  induction ps generalizing st s with
  | nil => simp [countFires]
  | cons p rest ih =>
    unfold countFires
    cases hf : onetimeFires s p with
    | false =>
      have h2 : entryAt (getDueSchedules st p).2 u i = some s := by
        rw [entryAt_tick, h]
        simp [stepSchedule_onetime_notfires p s hr hf]
      simpa [h, hf] using ih _ _ h2 hr
    | true =>
      have h2 : entryAt (getDueSchedules st p).2 u i = some (firedStoredCopy s p.today) := by
        rw [entryAt_tick, h]
        simp [stepSchedule_fires p s hr hf]
      have hz := countFires_inactive rest (getDueSchedules st p).2 u i _ h2 rfl
      simp [h, hf, hz]

/-! ### Invariants along a run of operations -/

theorem addSchedule_success_inv (st : State) (u ts c : String) (ch : Int)
    (w : Option String) (ca : String)
    (h : (addSchedule st u ts c ch w ca).1.success = true) :
    ∃ t pw names, parseHM ts = some t ∧ parseRecurrence w = .ok (pw, names) ∧
      (userSchedules st u).length < maxSchedulesPerUser := by
  cases hp : parseHM ts with
  | none =>
    rw [addSchedule_invalidTime st u ts c ch w ca hp] at h
    simp at h
  | some t =>
    cases hr : parseRecurrence w with
    | error d =>
      rw [addSchedule_invalidDay st u ts c ch w ca t d hp hr] at h
      simp at h
    | ok pr =>
      obtain ⟨pw, names⟩ := pr
      by_cases hq : maxSchedulesPerUser ≤ (userSchedules st u).length
      · rw [addSchedule_quota st u ts c ch w ca t (pw, names) hp hr hq] at h
        simp at h
      · exact ⟨t, pw, names, rfl, rfl, not_le.mp hq⟩

theorem userSchedules_applyOp_length (st : State) (op : Op) (u : String) :
    (userSchedules (applyOp st op) u).length =
      (userSchedules st u).length + addsOne st op u := by
  cases op with
  | addOp u2 ts c ch w ca =>
    simp only [applyOp, addsOne]
    by_cases hs : (addSchedule st u2 ts c ch w ca).1.success = true
    · by_cases hu : u2 = u
      · subst hu
        obtain ⟨t, pw, names, hp, hr, hq⟩ := addSchedule_success_inv st u2 ts c ch w ca hs
        rw [userSchedules_add_success st u2 ts c ch w ca t pw names hp hr hq]
        simp [hs]
      · rw [userSchedules_add_ne st u2 u ts c ch w ca (fun hh => hu hh.symm)]
        simp [hu]
    · have h0 := addSchedule_fail_state st u2 ts c ch w ca (by
        revert hs
        cases (addSchedule st u2 ts c ch w ca).1.success <;> simp)
      rw [h0]
      simp [hs]
  | delOp u2 sid =>
    simp only [applyOp, addsOne]
    rw [userSchedules_delete_length st u2 sid u]
    simp
  | tickOp p =>
    simp only [applyOp, addsOne]
    rw [userSchedules_tick st p u, List.length_map]
    simp

theorem userSchedules_runOps_length (ops : List Op) (st : State) (u : String) :
    (userSchedules (runOps st ops) u).length =
      (userSchedules st u).length + countAdds st ops u := by
  induction ops generalizing st with
  | nil => simp [runOps, countAdds]
  | cons op rest ih =>
    have h1 : runOps st (op :: rest) = runOps (applyOp st op) rest := rfl
    have h2 : countAdds st (op :: rest) u =
        addsOne st op u + countAdds (applyOp st op) rest u := rfl
    rw [h1, h2, ih (applyOp st op), userSchedules_applyOp_length st op u]
    omega

theorem idInv_applyOp (st : State) (op : Op)
    (hst : ∀ v, (userSchedules st v).map Schedule.id =
      List.range' 1 (userSchedules st v).length) (u : String) :
    (userSchedules (applyOp st op) u).map Schedule.id =
      List.range' 1 (userSchedules (applyOp st op) u).length := by
  cases op with
  | addOp u2 ts c ch w ca =>
    simp only [applyOp]
    by_cases hs : (addSchedule st u2 ts c ch w ca).1.success = true
    · by_cases hu : u2 = u
      · subst hu
        obtain ⟨t, pw, names, hp, hr, hq⟩ := addSchedule_success_inv st u2 ts c ch w ca hs
        rw [userSchedules_add_success st u2 ts c ch w ca t pw names hp hr hq]
        rw [List.map_append, hst u2, List.length_append]
        simp only [List.map_cons, List.map_nil, List.length_cons, List.length_nil]
        rw [List.range'_concat]
        congr 1
        simp [builtSchedule]
        omega
      · rw [userSchedules_add_ne st u2 u ts c ch w ca (fun hh => hu hh.symm)]
        exact hst u
    · rw [addSchedule_fail_state st u2 ts c ch w ca (by
        revert hs
        cases (addSchedule st u2 ts c ch w ca).1.success <;> simp)]
      exact hst u
  | delOp u2 sid =>
    simp only [applyOp]
    rw [userSchedules_delete_map st u2 sid u Schedule.id (fun s => rfl),
      userSchedules_delete_length st u2 sid u]
    exact hst u
  | tickOp p =>
    simp only [applyOp]
    rw [userSchedules_tick st p u, List.map_map, List.length_map]
    have hcomp : Schedule.id ∘ stepSchedule p = Schedule.id :=
      funext (fun s => (stepSchedule_proj p s).1)
    rw [hcomp]
    exact hst u

theorem idInv_runOps (ops : List Op) (st : State)
    (hst : ∀ v, (userSchedules st v).map Schedule.id =
      List.range' 1 (userSchedules st v).length) (u : String) :
    (userSchedules (runOps st ops) u).map Schedule.id =
      List.range' 1 (userSchedules (runOps st ops) u).length := by
  induction ops generalizing st with
  | nil => exact hst u
  | cons op rest ih => exact ih (applyOp st op) (idInv_applyOp st op hst)

/-! ### Remaining helper lemmas -/

theorem entryAt_mem (st : State) (u : String) (i : Nat) (s : Schedule)
    (h : entryAt st u i = some s) :
    ∃ l, lookupUser st u = some l ∧ s ∈ l := by
  unfold entryAt at h
  cases hl : lookupUser st u with
  | none =>
    rw [hl] at h
    simp at h
  | some l =>
    rw [hl] at h
    have h2 : l[i]? = some s := h
    obtain ⟨hlt, rfl⟩ := List.getElem?_eq_some.mp h2
    exact ⟨l, rfl, List.getElem_mem hlt⟩

theorem listSchedules_eq_filter (st : State) (u : String) :
    listSchedules st u = (userSchedules st u).filter (fun s => s.active) := by
  unfold listSchedules userSchedules
  cases lookupUser st u <;> rfl

theorem parseDays_error_iff (l : List String) :
    (∃ d, parseDays l = .error d) ↔ ∃ d ∈ l, spanishWeekday d = none := by
  induction l with
  | nil => simp [parseDays]
  | cons x rest ih =>
    unfold parseDays
    cases hx : spanishWeekday x with
    | none => simp [hx]
    | some n =>
      cases hp : parseDays rest with
      | error e =>
        simp only [List.mem_cons]
        constructor
        · intro _
          have : ∃ d, parseDays rest = Except.error d := ⟨e, hp⟩
          obtain ⟨d, hd, hnone⟩ := ih.mp this
          exact ⟨d, Or.inr hd, hnone⟩
        · intro _
          exact ⟨e, rfl⟩
      | ok ns =>
        simp only [List.mem_cons]
        constructor
        · intro ⟨d, hd⟩
          cases hd
        · intro ⟨d, hd, hnone⟩
          rcases hd with rfl | hd
          · rw [hx] at hnone
            cases hnone
          · obtain ⟨e, he⟩ := ih.mpr ⟨d, hd, hnone⟩
            rw [he] at hp
            cases hp

theorem parseRecurrence_error_iff (w : String) :
    (∃ d, parseRecurrence (some w) = .error d) ↔
      (w ≠ "" ∧ pyLower (pyStrip w) ≠ "all" ∧
        ∃ d ∈ (pySplitComma w).map (fun x => pyLower (pyStrip x)),
          spanishWeekday d = none) := by
  have hred : parseRecurrence (some w) =
      (if w = "" then .ok (none, [])
       else if pyLower (pyStrip w) = "all" then .ok (some [0, 1, 2, 3, 4, 5, 6], allDayNames)
       else
         match parseDays ((pySplitComma w).map (fun d => pyLower (pyStrip d))) with
         | .error d => .error d
         | .ok ns => .ok (some ns, (pySplitComma w).map (fun d => pyLower (pyStrip d)))) := rfl
  rw [hred]
  by_cases h1 : w = ""
  · simp [h1]
  · rw [if_neg h1]
    by_cases h2 : pyLower (pyStrip w) = "all"
    · simp [h2]
    · rw [if_neg h2]
      simp only [h1, h2, ne_eq, not_false_iff, true_and]
      cases hp : parseDays ((pySplitComma w).map (fun x => pyLower (pyStrip x))) with
      | error e =>
        constructor
        · intro _
          exact parseDays_error_iff _ |>.mp ⟨e, hp⟩
        · intro _
          exact ⟨e, rfl⟩
      | ok ns =>
        constructor
        · intro ⟨d, hd⟩
          cases hd
        · intro hex
          obtain ⟨e, he⟩ := (parseDays_error_iff _).mpr hex
          rw [he] at hp
          cases hp

theorem quotaMsg_head : quotaMsg.data.head? = some 'L' := rfl

theorem invalidDayMsg_head (d : String) : (invalidDayMsg d).data.head? = some 'D' := rfl

theorem quotaMsg_ne_invalidDayMsg (d : String) : quotaMsg ≠ invalidDayMsg d := by
  intro h
  have h2 : quotaMsg.data.head? = (invalidDayMsg d).data.head? :=
    congrArg (fun s => s.data.head?) h
  rw [quotaMsg_head, invalidDayMsg_head d] at h2
  simp at h2

/-! ### Well-formedness and the store round trip -/

theorem stateWF_mem_user (st : State) (v : String) (s : Schedule)
    (h : StateWF st) (hs : s ∈ userSchedules st v) : TimeWF s.time := by
  unfold userSchedules at hs
  cases hl : lookupUser st v with
  | none =>
    rw [hl] at hs
    simp at hs
  | some l =>
    rw [hl] at hs
    exact h (v, l) (lookupUser_mem st v l hl) s hs

theorem stateWF_setUser (st : State) (u : String) (l : List Schedule)
    (h : StateWF st) (hl : ∀ s ∈ l, TimeWF s.time) :
    StateWF (setUser st u l) := by
  intro q hq s hs
  rcases mem_setUser st u l q hq with hq2 | hq2
  · exact h q hq2 s hs
  · rw [hq2] at hs
    exact hl s hs

theorem stateWF_ensure (st : State) (u : String) (h : StateWF st) :
    StateWF (ensureUser st u) := by
  unfold ensureUser
  cases lookupUser st u with
  | some l => exact h
  | none => exact stateWF_setUser st u [] h (by simp)

theorem stateWF_applyOp (st : State) (op : Op) (h : StateWF st) :
    StateWF (applyOp st op) := by
  cases op with
  | addOp u2 ts c ch w ca =>
    simp only [applyOp]
    by_cases hs : (addSchedule st u2 ts c ch w ca).1.success = true
    · obtain ⟨t, pw, names, hp, hr, hq⟩ := addSchedule_success_inv st u2 ts c ch w ca hs
      rw [(addSchedule_success st u2 ts c ch w ca t pw names hp hr hq).2.2]
      refine stateWF_setUser _ u2 _ (stateWF_ensure st u2 h) ?_
      intro s hs2
      rcases List.mem_append.mp hs2 with hs3 | hs3
      · exact stateWF_mem_user st u2 s h hs3
      · have hb : s = builtSchedule st u2 c ch ca t pw names := by simpa using hs3
        rw [hb]
        exact parseHM_wf ts t hp
    · rw [addSchedule_fail_state st u2 ts c ch w ca (by
        revert hs
        cases (addSchedule st u2 ts c ch w ca).1.success <;> simp)]
      exact h
  | delOp u2 sid =>
    simp only [applyOp]
    unfold deleteSchedule
    cases hl : lookupUser st u2 with
    | none => exact h
    | some l =>
      simp only [hl]
      cases hd : deleteFirst l sid with
      | none =>
        simp only [hd]
        exact h
      | some l2 =>
        simp only [hd]
        refine stateWF_setUser st u2 l2 h ?_
        obtain ⟨l1, s0, l3, hdec, _, _, _, hl2⟩ := deleteFirst_some_decomp l sid l2 hd
        intro s hs2
        have hmem : ∀ x ∈ l, TimeWF x.time := fun x hx =>
          h (u2, l) (lookupUser_mem st u2 l hl) x hx
        rw [hl2] at hs2
        rcases List.mem_append.mp hs2 with hs3 | hs3
        · exact hmem s (by rw [hdec]; exact List.mem_append_left _ hs3)
        · rcases List.mem_cons.mp hs3 with rfl | hs4
          · exact hmem s0 (by rw [hdec]; simp)
          · exact hmem s (by rw [hdec]; simp [hs4])
  | tickOp p =>
    simp only [applyOp]
    unfold getDueSchedules
    intro q hq s hs
    simp only [List.mem_map] at hq
    obtain ⟨q0, hq0, rfl⟩ := hq
    simp only [List.mem_map] at hs
    obtain ⟨s0, hs0, rfl⟩ := hs
    rw [(stepSchedule_proj p s0).2.1]
    exact h q0 hq0 s0 hs0

theorem stateWF_runOps (ops : List Op) (st : State) (h : StateWF st) :
    StateWF (runOps st ops) := by
  induction ops generalizing st with
  | nil => exact h
  | cons op rest ih => exact ih (applyOp st op) (stateWF_applyOp st op h)

theorem loadSchedule_store (s : Schedule) (h : TimeWF s.time) :
    loadSchedule (storeSchedule s) = some s := by
  unfold loadSchedule storeSchedule
  simp only [time_roundtrip s.time h]
  rfl

theorem loadUser_save (l : List Schedule) (h : ∀ s ∈ l, TimeWF s.time) :
    loadUserSchedules (l.map storeSchedule) = some l := by
  induction l with
  | nil => rfl
  | cons s rest ih =>
    simp only [List.map_cons]
    unfold loadUserSchedules
    rw [loadSchedule_store s (h s (by simp))]
    rw [ih (fun x hx => h x (by simp [hx]))]
    rfl

theorem load_save (st : State) (h : StateWF st) :
    loadSchedules (saveSchedules st) = some st := by
  induction st with
  | nil => rfl
  | cons q rest ih =>
    obtain ⟨u, l⟩ := q
    simp only [saveSchedules, List.map_cons]
    unfold loadSchedules
    rw [loadUser_save l (fun s hs => h (u, l) (by simp) s hs)]
    have hrest : loadSchedules (saveSchedules rest) = some rest :=
      ih (fun q2 hq2 s hs => h q2 (List.mem_cons_of_mem _ hq2) s hs)
    simp only [saveSchedules] at hrest
    rw [hrest]
    rfl


/-! ### The claims -/

/-- C1: `add` fails with `QuotaExceeded` exactly when the count of all
schedules ever created for the user has reached the maximum of 5.  The
user's list length equals the number of successful adds along any run
from the empty registry (deletion never removes a record), and for an
otherwise-valid request `add` reports the quota failure iff that length
has reached `maxSchedulesPerUser`. -/
theorem C1_lifetime_quota :
    (∀ (ops : List Op) (u : String),
      (userSchedules (runOps [] ops) u).length = countAdds [] ops u) ∧
    (∀ (st : State) (u ts c : String) (ch : Int) (w : Option String)
      (ca : String) (t : Time) (pr : Option (List Nat) × List String),
      parseHM ts = some t → parseRecurrence w = .ok pr →
      ((addSchedule st u ts c ch w ca).1.isQuotaExceeded ↔
        maxSchedulesPerUser ≤ (userSchedules st u).length)) := by
  constructor
  · intro ops u
    have h := userSchedules_runOps_length ops [] u
    simpa [userSchedules, lookupUser] using h
  · intro st u ts c ch w ca t pr hp hr
    constructor
    · intro hqe
      by_contra hq
      obtain ⟨pw, names⟩ := pr
      have hs := (addSchedule_success st u ts c ch w ca t pw names hp hr (not_le.mp hq)).1
      rw [hqe.1] at hs
      simp at hs
    · intro hq
      rw [addSchedule_quota st u ts c ch w ca t pr hp hr hq]
      exact ⟨rfl, rfl⟩

/-- Witness for C1: after five adds and five deletes for "u1", the list
length still equals the number of successful adds (5), and a sixth add
fails with the quota message. -/
theorem C1_lifetime_quota_witness :
    ((userSchedules (runOps [] sampleOps) "u1").length = countAdds [] sampleOps "u1") ∧
    (addSchedule (runOps [] sampleOps) "u1" "10:00" "f" 0 none "t6").1.isQuotaExceeded := by
  refine ⟨C1_lifetime_quota.1 sampleOps "u1", ?_⟩
  refine (C1_lifetime_quota.2 (runOps [] sampleOps) "u1" "10:00" "f" 0 none "t6"
    { hour := 10, minute := 0, second := 0, microsecond := 0 } (none, []) rfl rfl).mpr ?_
  decide

/-- C4: along any run from the empty registry the ids of a user's list
are exactly 1, 2, ..., n (so pairwise distinct, even after deletions), and
a successful add assigns id = (length of the user's list so far) + 1. -/
theorem C4_ids_unique :
    (∀ (ops : List Op) (u : String),
      (userSchedules (runOps [] ops) u).map Schedule.id =
        List.range' 1 (userSchedules (runOps [] ops) u).length ∧
      ((userSchedules (runOps [] ops) u).map Schedule.id).Nodup) ∧
    (∀ (st : State) (u ts c : String) (ch : Int) (w : Option String)
      (ca : String) (s : Schedule),
      (addSchedule st u ts c ch w ca).1.schedule = some s →
      s.id = (userSchedules st u).length + 1) := by
  constructor
  · intro ops u
    have hbase : ∀ v, (userSchedules ([] : State) v).map Schedule.id =
        List.range' 1 (userSchedules ([] : State) v).length := fun v => rfl
    have h := idInv_runOps ops [] hbase u
    refine ⟨h, ?_⟩
    rw [h]
    simp [List.nodup_range']
  · intro st u ts c ch w ca s hsch
    cases hp : parseHM ts with
    | none =>
      rw [addSchedule_invalidTime st u ts c ch w ca hp] at hsch
      simp at hsch
    | some t =>
      cases hr : parseRecurrence w with
      | error d =>
        rw [addSchedule_invalidDay st u ts c ch w ca t d hp hr] at hsch
        simp at hsch
      | ok pr =>
        obtain ⟨pw, names⟩ := pr
        by_cases hq : maxSchedulesPerUser ≤ (userSchedules st u).length
        · rw [addSchedule_quota st u ts c ch w ca t (pw, names) hp hr hq] at hsch
          simp at hsch
        · have hs := (addSchedule_success st u ts c ch w ca t pw names hp hr (not_le.mp hq)).2.1
          rw [hs] at hsch
          obtain rfl : builtSchedule st u c ch ca t pw names = s := by simpa using hsch
          rfl

/-- Witness for C4: the ids after the sample run are duplicate-free, and
the first add on an empty registry assigns id 1. -/
theorem C4_ids_unique_witness :
    ((userSchedules (runOps [] sampleOps) "u1").map Schedule.id).Nodup ∧
    sampleSchedule.id = (userSchedules ([] : State) "u1").length + 1 :=
  ⟨(C4_ids_unique.1 sampleOps "u1").2,
   C4_ids_unique.2 [] "u1" "09:30" "x" 0 none "t" sampleSchedule (by decide)⟩

/-- C2: a one-time schedule fires at most once, ever.  Across any
sequence of resolver ticks the schedule at position `i` of user `u`
satisfies the one-time firing condition at most once; when it fires, its
due-set copy (carrying today's date) is in the tick's due set and the
stored record afterwards has today appended to `executed_dates` and
`active = false`; an inactive one-time schedule contributes nothing to
any due set and is left unchanged. -/
theorem C2_onetime_at_most_once (st : State) (u : String) (i : Nat)
    (s : Schedule) (ps : List TickParams) (p : TickParams)
    (h : entryAt st u i = some s) (hr : s.is_recurring = false) :
    countFires st ps u i ≤ 1 ∧
    (onetimeFires s p = true →
      (u, firedDueCopy s p.today) ∈ (getDueSchedules st p).1 ∧
      entryAt (getDueSchedules st p).2 u i = some (firedStoredCopy s p.today) ∧
      (firedStoredCopy s p.today).active = false ∧
      (firedStoredCopy s p.today).executed_dates = s.executed_dates ++ [p.today]) ∧
    (s.active = false →
      dueOfSchedule p u s = [] ∧ stepSchedule p s = s ∧
      onetimeFires s p = false) := by
  refine ⟨countFires_le_one ps st u i s h hr, ?_, ?_⟩
  · intro hf
    obtain ⟨l, hl, hmem⟩ := entryAt_mem st u i s h
    refine ⟨?_, ?_, rfl, rfl⟩
    · refine mem_getDue_of_mem st p u l s _ hl hmem ?_
      rw [dueOfSchedule_fires p u s hr hf]
      simp [firedDueCopy]
    · rw [entryAt_tick, h]
      simp [stepSchedule_fires p s hr hf]
  · intro ha
    refine ⟨dueOfSchedule_inactive p u s ha, stepSchedule_inactive p s ha, ?_⟩
    unfold onetimeFires
    rw [ha]
    simp

/-- Witness for C2: one one-time schedule, two identical ticks in its
minute; it fires at most once and its due copy is in the due set. -/
theorem C2_onetime_at_most_once_witness :
    countFires [("u1", [sampleSchedule])] [sampleTick, sampleTick] "u1" 0 ≤ 1 ∧
    ("u1", firedDueCopy sampleSchedule sampleTick.today) ∈
      (getDueSchedules [("u1", [sampleSchedule])] sampleTick).1 := by
  have h := C2_onetime_at_most_once [("u1", [sampleSchedule])] "u1" 0 sampleSchedule
    [sampleTick, sampleTick] sampleTick (by decide) rfl
  exact ⟨h.1, (h.2.1 (by decide)).1⟩

/-- C3: an active recurring schedule whose minute-truncated time equals
the current minute contributes its copy to the due set iff the current
weekday index is in its weekday set, and the stored record is left
unchanged by the tick (so it remains armed). -/
theorem C3_recurring_weekday (st : State) (u : String) (i : Nat)
    (s : Schedule) (l : List Nat) (p : TickParams)
    (h : entryAt st u i = some s) (hr : s.is_recurring = true)
    (hw : s.weekdays = some l) (hl : l ≠ []) (ha : s.active = true)
    (hm : minuteTrunc s.time = minuteTrunc p.now) :
    dueOfSchedule p u s = (if p.wd ∈ l then [(u, s)] else []) ∧
    (p.wd ∈ l → (u, s) ∈ (getDueSchedules st p).1) ∧
    stepSchedule p s = s ∧
    entryAt (getDueSchedules st p).2 u i = some s := by
  refine ⟨dueOfSchedule_recurring p u s l hr hw hl ha hm, ?_,
    stepSchedule_recurring p s l hr hw hl, ?_⟩
  · intro hwd
    obtain ⟨l2, hl2, hmem⟩ := entryAt_mem st u i s h
    refine mem_getDue_of_mem st p u l2 s _ hl2 hmem ?_
    rw [dueOfSchedule_recurring p u s l hr hw hl ha hm, if_pos hwd]
    simp
  · rw [entryAt_tick, h]
    simp [stepSchedule_recurring p s l hr hw hl]

/-- Witness for C3: a Monday/Wednesday 08:00 schedule matches on a Monday
tick, does not match on a Tuesday tick, and is unchanged either way. -/
theorem C3_recurring_weekday_witness :
    dueOfSchedule tickMon0800 "u1" recurringSample =
      (if tickMon0800.wd ∈ [0, 2] then [("u1", recurringSample)] else []) ∧
    dueOfSchedule tickTue0800 "u1" recurringSample =
      (if tickTue0800.wd ∈ [0, 2] then [("u1", recurringSample)] else []) ∧
    stepSchedule tickTue0800 recurringSample = recurringSample := by
  have hMon := C3_recurring_weekday [("u1", [recurringSample])] "u1" 0 recurringSample
    [0, 2] tickMon0800 (by decide) rfl rfl (by decide) rfl (by decide)
  have hTue := C3_recurring_weekday [("u1", [recurringSample])] "u1" 0 recurringSample
    [0, 2] tickTue0800 (by decide) rfl rfl (by decide) rfl (by decide)
  exact ⟨hMon.1, hTue.1, hTue.2.2.1⟩

theorem nodup_ids_side (l1 : List Schedule) (s : Schedule) (l3 : List Schedule)
    (hnd : ((l1 ++ s :: l3).map Schedule.id).Nodup) :
    ∀ x, x ∈ l1 ∨ x ∈ l3 → ¬x.id = s.id := by
  intro x hx heq
  rw [List.map_append, List.map_cons] at hnd
  obtain ⟨h1, h2, hdisj⟩ := List.nodup_append.mp hnd
  rcases hx with hx | hx
  · exact hdisj (List.mem_map_of_mem Schedule.id hx) (by rw [heq]; simp)
  · have hs3 : s.id ∉ l3.map Schedule.id := (List.nodup_cons.mp h2).1
    exact hs3 (heq ▸ List.mem_map_of_mem Schedule.id hx)

/-- C5: recurrence "all" is equivalent to listing all seven day names:
the whole result of `add` (message, created schedule and new state) is
identical, and both texts parse to the full weekday set [0..6] with the
canonical display names. -/
theorem C5_all_equivalence :
    (∀ (st : State) (u ts c : String) (ch : Int) (ca : String),
      addSchedule st u ts c ch (some "all") ca =
        addSchedule st u ts c ch
          (some "lunes,martes,miercoles,jueves,viernes,sabado,domingo") ca) ∧
    parseRecurrence (some "all") = .ok (some [0, 1, 2, 3, 4, 5, 6], allDayNames) ∧
    parseRecurrence (some "lunes,martes,miercoles,jueves,viernes,sabado,domingo") =
      .ok (some [0, 1, 2, 3, 4, 5, 6], allDayNames) := by
  have hpr : parseRecurrence (some "all") =
      parseRecurrence (some "lunes,martes,miercoles,jueves,viernes,sabado,domingo") := by
    rfl
  refine ⟨?_, by rfl, by rfl⟩
  intro st u ts c ch ca
  unfold addSchedule
  rw [hpr]

/-- C6: `delete` succeeds iff the user has an active schedule with the
given id; afterwards that id is absent from `list`'s output, a second
delete of the same id fails, and on success exactly the matched record's
`active` flag is flipped.  (The id-uniqueness hypothesis holds for every
reachable registry by C4.) -/
theorem C6_delete_iff (st : State) (u : String) (sid : Nat)
    (hids : ((userSchedules st u).map Schedule.id).Nodup) :
    ((deleteSchedule st u sid).1.success = true ↔
      ∃ s ∈ userSchedules st u, s.id = sid ∧ s.active = true) ∧
    (∀ s2 ∈ listSchedules (deleteSchedule st u sid).2 u, s2.id ≠ sid) ∧
    ((deleteSchedule (deleteSchedule st u sid).2 u sid).1.success = false) ∧
    ((deleteSchedule st u sid).1.success = true →
      ∃ l1 s l3, userSchedules st u = l1 ++ s :: l3 ∧ s.id = sid ∧
        s.active = true ∧
        userSchedules (deleteSchedule st u sid).2 u =
          l1 ++ { s with active := false } :: l3) := by
  refine ⟨deleteSchedule_success_iff st u sid, ?_, ?_, ?_⟩
  · intro s2 hs2 heq
    rw [listSchedules_eq_filter] at hs2
    have hs2m := List.mem_filter.mp hs2
    have hact : s2.active = true := by simpa using hs2m.2
    cases hsucc : (deleteSchedule st u sid).1.success with
    | false =>
      rw [deleteSchedule_fail_state st u sid hsucc] at hs2m
      have hex : ∃ s ∈ userSchedules st u, s.id = sid ∧ s.active = true :=
        ⟨s2, hs2m.1, heq, hact⟩
      have h2 := (deleteSchedule_success_iff st u sid).mpr hex
      rw [hsucc] at h2
      cases h2
    | true =>
      cases hl : lookupUser st u with
      | none =>
        have hx := (deleteSchedule_success_iff st u sid).mp hsucc
        rw [userSchedules_eq_of_lookup_none st u hl] at hx
        simp at hx
      | some l =>
        cases hd : deleteFirst l sid with
        | none =>
          unfold deleteSchedule at hsucc
          simp only [hl, hd] at hsucc
          cases hsucc
        | some l2 =>
          have hstate := (deleteSchedule_succ_state st u sid l l2 hl hd).2
          rw [hstate, userSchedules_set_self] at hs2m
          obtain ⟨l1, s0, l3, hdec, _, hid0, _, hl2⟩ :=
            deleteFirst_some_decomp l sid l2 hd
          have hnd : ((l1 ++ s0 :: l3).map Schedule.id).Nodup := by
            rw [← hdec]
            rw [userSchedules_of_lookup st u l hl] at hids
            exact hids
          rw [hl2] at hs2m
          rcases List.mem_append.mp hs2m.1 with hx | hx
          · exact nodup_ids_side l1 s0 l3 hnd s2 (Or.inl hx) (by rw [heq, hid0])
          · rcases List.mem_cons.mp hx with rfl | hx2
            · simp at hact
            · exact nodup_ids_side l1 s0 l3 hnd s2 (Or.inr hx2) (by rw [heq, hid0])
  · cases hsucc : (deleteSchedule st u sid).1.success with
    | false =>
      rw [deleteSchedule_fail_state st u sid hsucc]
      exact hsucc
    | true =>
      cases hl : lookupUser st u with
      | none =>
        have hx := (deleteSchedule_success_iff st u sid).mp hsucc
        rw [userSchedules_eq_of_lookup_none st u hl] at hx
        simp at hx
      | some l =>
        cases hd : deleteFirst l sid with
        | none =>
          unfold deleteSchedule at hsucc
          simp only [hl, hd] at hsucc
          cases hsucc
        | some l2 =>
          have hstate := (deleteSchedule_succ_state st u sid l l2 hl hd).2
          rw [hstate]
          obtain ⟨l1, s0, l3, hdec, _, hid0, _, hl2⟩ :=
            deleteFirst_some_decomp l sid l2 hd
          have hnd : ((l1 ++ s0 :: l3).map Schedule.id).Nodup := by
            rw [← hdec]
            rw [userSchedules_of_lookup st u l hl] at hids
            exact hids
          have hnone : deleteFirst l2 sid = none := by
            rw [deleteFirst_none_iff]
            intro x hx hpair
            rw [hl2] at hx
            rcases List.mem_append.mp hx with hx2 | hx2
            · exact nodup_ids_side l1 s0 l3 hnd x (Or.inl hx2)
                (by rw [hpair.1, hid0])
            · rcases List.mem_cons.mp hx2 with rfl | hx3
              · have := hpair.2
                simp at this
              · exact nodup_ids_side l1 s0 l3 hnd x (Or.inr hx3)
                  (by rw [hpair.1, hid0])
          unfold deleteSchedule
          simp only [lookupUser_set_self, hnone]
  · intro hsucc
    cases hl : lookupUser st u with
    | none =>
      have hx := (deleteSchedule_success_iff st u sid).mp hsucc
      rw [userSchedules_eq_of_lookup_none st u hl] at hx
      simp at hx
    | some l =>
      cases hd : deleteFirst l sid with
      | none =>
        unfold deleteSchedule at hsucc
        simp only [hl, hd] at hsucc
        cases hsucc
      | some l2 =>
        obtain ⟨l1, s0, l3, hdec, _, hid0, hact0, hl2⟩ :=
          deleteFirst_some_decomp l sid l2 hd
        have hstate := (deleteSchedule_succ_state st u sid l l2 hl hd).2
        refine ⟨l1, s0, l3, ?_, hid0, hact0, ?_⟩
        · rw [userSchedules_of_lookup st u l hl]
          exact hdec
        · rw [hstate, userSchedules_set_self]
          exact hl2

/-- Witness for C6: deleting id 1 from a one-schedule registry succeeds,
and deleting it again fails. -/
theorem C6_delete_iff_witness :
    ((deleteSchedule [("u1", [sampleSchedule])] "u1" 1).1.success = true ↔
      ∃ s ∈ userSchedules [("u1", [sampleSchedule])] "u1",
        s.id = 1 ∧ s.active = true) ∧
    (deleteSchedule (deleteSchedule [("u1", [sampleSchedule])] "u1" 1).2
      "u1" 1).1.success = false := by
  have h := C6_delete_iff [("u1", [sampleSchedule])] "u1" 1 (by decide)
  exact ⟨h.1, h.2.2.1⟩

/-- C7: saving and reloading any registry reachable by add/delete/tick
operations reconstructs it exactly (every field of every schedule). -/
theorem C7_save_load_roundtrip (ops : List Op) :
    loadSchedules (saveSchedules (runOps [] ops)) = some (runOps [] ops) := by
  refine load_save (runOps [] ops) (stateWF_runOps ops [] ?_)
  intro q hq
  simp at hq

/-- C8: after the constructor's directory logic runs, the directory
containing the default data file exists in the filesystem (the current
directory "." always exists). -/
theorem C8_data_dir_exists (fs : List String) (hdot : "." ∈ fs) :
    dirOfPath (defaultDataFile fs) ∈ makeDirsStep fs := by
  by_cases hd : "data" ∈ fs
  · have h1 : chooseDataDir fs = "data" := by
      unfold chooseDataDir
      rw [if_pos hd]
    unfold defaultDataFile makeDirsStep
    rw [h1]
    have h2 : dirOfPath ("data" ++ "/schedules.json") = "data" := by decide
    rw [h2, if_pos hd]
    exact hd
  · have h1 : chooseDataDir fs = "." := by
      unfold chooseDataDir
      rw [if_neg hd]
    unfold defaultDataFile makeDirsStep
    rw [h1]
    have h2 : dirOfPath ("." ++ "/schedules.json") = "." := by decide
    rw [h2, if_pos hdot]
    exact hdot

/-- Witness for C8: with only the current directory existing, the data
file's directory exists after construction. -/
theorem C8_data_dir_exists_witness :
    ("." ∈ ["."]) ∧ dirOfPath (defaultDataFile ["."]) ∈ makeDirsStep ["."] :=
  ⟨by decide, C8_data_dir_exists ["."] (by decide)⟩

/-- C9 counterexample: for recurrence text "all,lunes" every
comma-separated token is the literal "all" or a recognized day name, yet
`add` fails with the invalid-weekday message naming the token "all" (the
code only recognizes "all" as the entire text, not as a list token). -/
theorem C9_all_token_counterexample :
    (addSchedule [] "u1" "09:30" "x" 0 (some "all,lunes") "t").1.success = false ∧
    (addSchedule [] "u1" "09:30" "x" 0 (some "all,lunes") "t").1.message =
      invalidDayMsg "all" ∧
    (∀ tok ∈ (pySplitComma "all,lunes").map (fun d => pyLower (pyStrip d)),
      tok = "all" ∨ (spanishWeekday tok).isSome = true) := by
  refine ⟨by decide, by decide, by decide⟩

/-- C9 (amended): for a parseable time, `add` fails with `InvalidWeekday`
iff the recurrence text is nonempty, its stripped lowercase form is not
exactly the literal "all", and some comma-separated token (stripped,
lowercased) is not one of the seven day names.  In particular the token
"all" is only recognized when it is the entire text; inside a longer list
it causes an `InvalidWeekday` failure. -/
theorem C9_invalid_weekday_iff (st : State) (u ts c : String) (ch : Int)
    (w ca : String) (t : Time) (hp : parseHM ts = some t) :
    (addSchedule st u ts c ch (some w) ca).1.isInvalidWeekday ↔
      (w ≠ "" ∧ pyLower (pyStrip w) ≠ "all" ∧
        ∃ d ∈ (pySplitComma w).map (fun x => pyLower (pyStrip x)),
          spanishWeekday d = none) := by
  rw [← parseRecurrence_error_iff w]
  constructor
  · intro hiw
    cases hr : parseRecurrence (some w) with
    | error d => exact ⟨d, rfl⟩
    | ok pr =>
      obtain ⟨pw, names⟩ := pr
      by_cases hq : maxSchedulesPerUser ≤ (userSchedules st u).length
      · rw [addSchedule_quota st u ts c ch (some w) ca t (pw, names) hp hr hq] at hiw
        obtain ⟨h1, d, hmsg⟩ := hiw
        exact absurd hmsg (quotaMsg_ne_invalidDayMsg d)
      · have hs := (addSchedule_success st u ts c ch (some w) ca t pw names hp hr
          (not_le.mp hq)).1
        rw [hiw.1] at hs
        simp at hs
  · intro hex
    obtain ⟨d, hr⟩ := hex
    rw [addSchedule_invalidDay st u ts c ch (some w) ca t d hp hr]
    exact ⟨rfl, d, rfl⟩

/-- Witness for the amended C9: "all,lunes" (with a valid time) fails
with `InvalidWeekday`. -/
theorem C9_invalid_weekday_iff_witness :
    (addSchedule [] "u1" "09:30" "x" 0 (some "all,lunes") "t").1.isInvalidWeekday := by
  refine (C9_invalid_weekday_iff [] "u1" "09:30" "x" 0 "all,lunes" "t"
    { hour := 9, minute := 30, second := 0, microsecond := 0 } rfl).mpr ?_
  exact ⟨by decide, by decide, "all", by decide, by decide⟩

/-- C10: validation precedence for a user already at quota — an
unparseable time yields `InvalidTime`, a valid time with an unrecognized
day token yields `InvalidWeekday` (not `QuotaExceeded`), otherwise
`QuotaExceeded`; in all three failure cases the registry is returned
unchanged (and since `save_schedules` is only called on success, nothing
is persisted). -/
theorem C10_validation_precedence (st : State) (u ts c : String) (ch : Int)
    (w : Option String) (ca : String)
    (hq : maxSchedulesPerUser ≤ (userSchedules st u).length) :
    (parseHM ts = none →
      (addSchedule st u ts c ch w ca).1.isInvalidTime ∧
      (addSchedule st u ts c ch w ca).2 = st) ∧
    (∀ t d, parseHM ts = some t → parseRecurrence w = .error d →
      (addSchedule st u ts c ch w ca).1.isInvalidWeekday ∧
      (addSchedule st u ts c ch w ca).2 = st) ∧
    (∀ t pr, parseHM ts = some t → parseRecurrence w = .ok pr →
      (addSchedule st u ts c ch w ca).1.isQuotaExceeded ∧
      (addSchedule st u ts c ch w ca).2 = st) := by
  refine ⟨?_, ?_, ?_⟩
  · intro hp
    rw [addSchedule_invalidTime st u ts c ch w ca hp]
    exact ⟨⟨rfl, rfl⟩, rfl⟩
  · intro t d hp hr
    rw [addSchedule_invalidDay st u ts c ch w ca t d hp hr]
    exact ⟨⟨rfl, d, rfl⟩, rfl⟩
  · intro t pr hp hr
    rw [addSchedule_quota st u ts c ch w ca t pr hp hr hq]
    exact ⟨⟨rfl, rfl⟩, rfl⟩

/-- Witness for C10: with "u1" at quota (after the sample run, whose five
records remain), a bad time gives `InvalidTime`, a bad day token gives
`InvalidWeekday`, a valid request gives `QuotaExceeded`; the registry is
unchanged each time. -/
theorem C10_validation_precedence_witness :
    ((addSchedule (runOps [] sampleOps) "u1" "xx" "c" 0 none "t").1.isInvalidTime ∧
      (addSchedule (runOps [] sampleOps) "u1" "xx" "c" 0 none "t").2 =
        runOps [] sampleOps) ∧
    ((addSchedule (runOps [] sampleOps) "u1" "09:30" "c" 0 (some "caturday")
        "t").1.isInvalidWeekday ∧
      (addSchedule (runOps [] sampleOps) "u1" "09:30" "c" 0 (some "caturday") "t").2 =
        runOps [] sampleOps) ∧
    ((addSchedule (runOps [] sampleOps) "u1" "09:30" "c" 0 none "t").1.isQuotaExceeded ∧
      (addSchedule (runOps [] sampleOps) "u1" "09:30" "c" 0 none "t").2 =
        runOps [] sampleOps) := by
  have hq : maxSchedulesPerUser ≤ (userSchedules (runOps [] sampleOps) "u1").length := by
    decide
  refine ⟨(C10_validation_precedence (runOps [] sampleOps) "u1" "xx" "c" 0 none "t" hq).1
      (by decide),
    (C10_validation_precedence (runOps [] sampleOps) "u1" "09:30" "c" 0
      (some "caturday") "t" hq).2.1
      { hour := 9, minute := 30, second := 0, microsecond := 0 } "caturday" rfl rfl,
    (C10_validation_precedence (runOps [] sampleOps) "u1" "09:30" "c" 0 none "t" hq).2.2
      { hour := 9, minute := 30, second := 0, microsecond := 0 } (none, []) rfl rfl⟩

end Meshmate
